import Mathlib

/-!
Verification of the churn-preprocessing script `preprocessing/automate_Trio_Anggoro.py`.

A pandas dataframe is modelled as a header (list of column names) together with a
list of rows, each row a list of cells.  A cell is a string, a rational number
(modelling Python ints and floats), or NaN.  Each pipeline step of the script is
embedded as a function on this model; steps that can raise a Python exception
return `Option` (`none` = exception propagates to the driver's handler).
-/

inductive Value where
  | str (s : String)
  | num (q : ℚ)
  | nan
deriving DecidableEq, Repr

structure DataFrame where
  header : List String
  rows : List (List Value)
deriving DecidableEq, Repr

def isNan : Value → Bool
  | .nan => true
  | _ => false

def isStr : Value → Bool
  | .str _ => true
  | _ => false

/-- Cell of a row at a column index; out-of-range reads give NaN (pandas
dataframes are rectangular, so well-formed inputs never hit the default). -/
def getCell (row : List Value) (i : ℕ) : Value := row.getD i .nan

/-- Index of the first occurrence of a name in a header (`df[name]` lookup). -/
def findIdxFrom (c : String) : List String → Option ℕ
  | [] => none
  | h :: t => if h = c then some 0 else (findIdxFrom c t).map (· + 1)

def colIdx (df : DataFrame) (c : String) : Option ℕ := findIdxFrom c df.header

/-- The list of values of column `c` (`df[c]`), `none` when the column is absent. -/
def getColumn (df : DataFrame) (c : String) : Option (List Value) :=
  (colIdx df c).map (fun i => df.rows.map (fun r => getCell r i))

/-- Rectangularity: every row has exactly one cell per header entry. -/
def Rect (df : DataFrame) : Prop := ∀ r ∈ df.rows, r.length = df.header.length

/-- No NaN anywhere in the dataframe. -/
def NoNan (df : DataFrame) : Prop := ∀ r ∈ df.rows, ∀ v ∈ r, v ≠ Value.nan

instance : DecidablePred Rect := fun df =>
  inferInstanceAs (Decidable (∀ r ∈ df.rows, r.length = df.header.length))

instance : DecidablePred NoNan := fun df =>
  inferInstanceAs (Decidable (∀ r ∈ df.rows, ∀ v ∈ r, v ≠ Value.nan))

/-! ### Numeric string parsing (model of `pd.to_numeric` / Python `float`) -/

def digitsVal (cs : List Char) : ℕ :=
  cs.foldl (fun a c => a * 10 + (c.toNat - 48)) 0

/-- Parse an optional exponent suffix applied to a mantissa. -/
def parseExpPart (base : ℚ) : List Char → Option ℚ
  | [] => some base
  | c :: rest =>
    if c = 'e' ∨ c = 'E' then
      match rest with
      | '-' :: ds => if ds ≠ [] ∧ ds.all Char.isDigit
          then some (base * (10 : ℚ) ^ (-(digitsVal ds : ℤ))) else none
      | '+' :: ds => if ds ≠ [] ∧ ds.all Char.isDigit
          then some (base * (10 : ℚ) ^ (digitsVal ds : ℤ)) else none
      | ds => if ds ≠ [] ∧ ds.all Char.isDigit
          then some (base * (10 : ℚ) ^ (digitsVal ds : ℤ)) else none
    else none

/-- Parse an unsigned decimal literal: digits, optional point, optional exponent. -/
def parseUnsignedRat (cs : List Char) : Option ℚ :=
  let intPart := cs.takeWhile Char.isDigit
  let rest := cs.dropWhile Char.isDigit
  match rest with
  | '.' :: rest2 =>
    let fracPart := rest2.takeWhile Char.isDigit
    let rest3 := rest2.dropWhile Char.isDigit
    if intPart = [] ∧ fracPart = [] then none
    else parseExpPart
      ((digitsVal intPart : ℚ) + (digitsVal fracPart : ℚ) / (10 : ℚ) ^ fracPart.length)
      rest3
  | _ =>
    if intPart = [] then none
    else parseExpPart (digitsVal intPart : ℚ) rest

/-- Model of numeric parsing as done by `pd.to_numeric` on one string. -/
def parseRat (s : String) : Option ℚ :=
  match s.toList with
  | '-' :: cs => (parseUnsignedRat cs).map (fun q => -q)
  | '+' :: cs => parseUnsignedRat cs
  | cs => parseUnsignedRat cs

/-- Strip leading and trailing whitespace (Python `str.strip` / `int(...)`'s
implicit strip). -/
def trimChars (cs : List Char) : List Char :=
  ((cs.dropWhile Char.isWhitespace).reverse.dropWhile Char.isWhitespace).reverse

def strTrim (s : String) : String := ⟨trimChars s.toList⟩

/-- Model of Python `int(s)`: optional sign then decimal digits only. -/
def parsePyInt (s : String) : Option ℤ :=
  match s.toList with
  | '-' :: cs => if cs ≠ [] ∧ cs.all Char.isDigit then some (-(digitsVal cs : ℤ)) else none
  | '+' :: cs => if cs ≠ [] ∧ cs.all Char.isDigit then some (digitsVal cs : ℤ) else none
  | cs => if cs ≠ [] ∧ cs.all Char.isDigit then some (digitsVal cs : ℤ) else none

/-! ### `clean_data` -/

/-- One cell of `pd.to_numeric(df['TotalCharges'].str.strip(), errors='coerce')`:
the `.str` accessor turns non-string elements into NaN, the string is stripped,
and a failed parse is coerced to NaN. -/
def toNumericStripped (v : Value) : Value :=
  match v with
  | .str s =>
    match parseRat (strTrim s) with
    | some q => .num q
    | none => .nan
  | _ => .nan

def hasNanRow (row : List Value) : Bool := row.any isNan

/-- `clean_data`: coerce `TotalCharges` to numeric (NaN on failure), then drop
every row containing a NaN.  `none` models the raised exception when the column
is missing (KeyError) or has a numeric dtype, i.e. no string cell in a nonempty
column, on which the `.str` accessor raises. -/
def clean_data (df : DataFrame) : Option DataFrame :=
  match colIdx df "TotalCharges" with
  | none => none
  | some i =>
    let vals := df.rows.map (fun r => getCell r i)
    if vals.isEmpty ∨ vals.any isStr then
      let rows2 := df.rows.map (fun r => r.set i (toNumericStripped (getCell r i)))
      some ⟨df.header, rows2.filter (fun r => ! hasNanRow r)⟩
    else none

/-! ### `select_features` -/

def selected_columns : List String :=
  ["InternetService", "OnlineSecurity", "TechSupport", "Contract",
   "PaymentMethod", "SeniorCitizen", "MonthlyCharges", "Churn"]

/-- Project the rows of `df` onto a list of column names. -/
def projectCols (df : DataFrame) (cols : List String) : DataFrame :=
  ⟨cols, df.rows.map (fun r => cols.map (fun c => getCell r ((colIdx df c).getD 0)))⟩

/-- `select_features`: `df[selected_columns].copy()`; KeyError (`none`) when a
selected column is missing. -/
def select_features (df : DataFrame) : Option DataFrame :=
  if selected_columns.all (fun c => (colIdx df c).isSome) then
    some (projectCols df selected_columns)
  else none

/-! ### `feature_engineering` (binning via `pd.cut(..., bins=3, labels=[...])`) -/

def listMin : List ℚ → Option ℚ
  | [] => none
  | x :: xs => some (xs.foldl min x)

def listMax : List ℚ → Option ℚ
  | [] => none
  | x :: xs => some (xs.foldl max x)

/-- The end-point adjustment pandas applies when all values are equal:
0.1% of `|m|`, or 0.001 when `m = 0`. -/
def cutAdj (m : ℚ) : ℚ := if m = 0 then 1 / 1000 else |m| / 1000

/-- The four bin edges `np.linspace(mn, mx, 4)` computed by `pd.cut` for
`bins=3`, with pandas' end-point adjustment: for `mn < mx` the leftmost edge is
lowered by 0.1% of the range (so the minimum falls in the first half-open bin);
for `mn = mx` both end points are first moved out by `cutAdj` and the widened
interval is split evenly. -/
def cutE0 (mn mx : ℚ) : ℚ :=
  if mn = mx then mn - cutAdj mn else mn - (mx - mn) / 1000

def cutE1 (mn mx : ℚ) : ℚ :=
  if mn = mx then (mn - cutAdj mn) + ((mx + cutAdj mx) - (mn - cutAdj mn)) / 3
  else mn + (mx - mn) / 3

def cutE2 (mn mx : ℚ) : ℚ :=
  if mn = mx then (mn - cutAdj mn) + 2 * ((mx + cutAdj mx) - (mn - cutAdj mn)) / 3
  else mn + 2 * (mx - mn) / 3

def cutE3 (mn mx : ℚ) : ℚ :=
  if mn = mx then mx + cutAdj mx else mx

/-- Label of one value under `pd.cut` with the edges above and right-closed
bins: values outside `(e₀, e₃]` become NaN. -/
def cutLabel (mn mx v : ℚ) : Value :=
  if v ≤ cutE0 mn mx then .nan
  else if v ≤ cutE1 mn mx then .str "Rendah"
  else if v ≤ cutE2 mn mx then .str "Sedang"
  else if v ≤ cutE3 mn mx then .str "Tinggi"
  else .nan

def asNum : Value → Option ℚ
  | .num q => some q
  | _ => none

/-- All-or-nothing extraction used to model operations that need a fully
numeric column (`pd.cut` raises on non-numeric data). -/
def optMap (f : α → Option β) : List α → Option (List β)
  | [] => some []
  | x :: xs =>
    match f x, optMap f xs with
    | some y, some ys => some (y :: ys)
    | _, _ => none

/-- `df[c] = vs`: overwrite an existing column, else append a new one. -/
def setColumn (df : DataFrame) (c : String) (vs : List Value) : DataFrame :=
  match colIdx df c with
  | some i => ⟨df.header, List.zipWith (fun r v => r.set i v) df.rows vs⟩
  | none => ⟨df.header ++ [c], List.zipWith (fun r v => r ++ [v]) df.rows vs⟩

/-- `df.drop(c, axis=1)` (caller guarantees presence in the script). -/
def dropColumn (df : DataFrame) (c : String) : DataFrame :=
  match colIdx df c with
  | some i => ⟨df.header.eraseIdx i, df.rows.map (fun r => r.eraseIdx i)⟩
  | none => df

/-- `df.rename(columns={old: new})`. -/
def renameColumn (df : DataFrame) (old new : String) : DataFrame :=
  ⟨df.header.map (fun c => if c = old then new else c), df.rows⟩

/-- The body of `feature_engineering` once the column index, the numeric
column values and their range are known. -/
def featureEngineerWith (df : DataFrame) (qs : List ℚ) (mn mx : ℚ) : Option DataFrame :=
  let labeled := qs.map (cutLabel mn mx)
  let df2 := setColumn df "MonthlyCharges_Category" labeled
  let df3 := dropColumn df2 "MonthlyCharges"
  let df4 := renameColumn df3 "MonthlyCharges_Category" "MonthlyCharges"
  let cols := df4.header.filter (fun c => c ≠ "Churn") ++ ["Churn"]
  if (colIdx df4 "Churn").isSome then some (projectCols df4 cols) else none

/-- `feature_engineering`: bin `MonthlyCharges` into three labels, drop the
numeric column, rename the binned one back to `MonthlyCharges`, and reorder the
columns so that `Churn` is last.  `none` models the exceptions raised when the
column is missing, contains non-numeric data, or is empty. -/
def feature_engineering (df : DataFrame) : Option DataFrame :=
  (colIdx df "MonthlyCharges").bind (fun i =>
    (optMap asNum (df.rows.map (fun r => getCell r i))).bind (fun qs =>
      (listMin qs).bind (fun mn =>
        (listMax qs).bind (fun mx => featureEngineerWith df qs mn mx))))

/-! ### `encode_data` -/

/-- The fixed value-to-integer mapping table of `encode_data`. -/
def mappings : List (String × List (String × ℤ)) :=
  [("InternetService", [("DSL", 0), ("Fiber optic", 1), ("No", 2)]),
   ("OnlineSecurity", [("No", 0), ("No internet service", 1), ("Yes", 2)]),
   ("TechSupport", [("No", 0), ("No internet service", 1), ("Yes", 2)]),
   ("Contract", [("Month-to-month", 0), ("One year", 1), ("Two year", 2)]),
   ("PaymentMethod",
     [("Bank transfer (automatic)", 0), ("Credit card (automatic)", 1),
      ("Electronic check", 2), ("Mailed check", 3)]),
   ("MonthlyCharges", [("Rendah", 0), ("Sedang", 1), ("Tinggi", 2)]),
   ("Churn", [("No", 0), ("Yes", 1)])]

def lookupMap (m : List (String × ℤ)) (s : String) : Option ℤ :=
  (m.find? (fun p => p.1 = s)).map (fun p => p.2)

/-- One cell of `df[col].replace(mapping)`: a string equal to a key becomes the
mapped integer; every other value is left as-is. -/
def replaceCell (m : List (String × ℤ)) (v : Value) : Value :=
  match v with
  | .str s =>
    match lookupMap m s with
    | some z => .num (z : ℚ)
    | none => v
  | _ => v

/-- Truncation toward zero, as Python `int()` applied to a float. -/
def truncQ (q : ℚ) : ℤ := if 0 ≤ q then ⌊q⌋ else ⌈q⌉

/-- One cell of `astype(int)`: numbers are truncated, numeric strings are
parsed, anything else (NaN, non-numeric strings) raises ValueError (`none`). -/
def intOfCell (v : Value) : Option ℤ :=
  match v with
  | .num q => some (truncQ q)
  | .str s => parsePyInt (strTrim s)
  | .nan => none

/-- Map a function over the cells of one column, leaving the rest untouched. -/
def mapColumn (df : DataFrame) (c : String) (f : Value → Value) : DataFrame :=
  match colIdx df c with
  | some i => ⟨df.header, df.rows.map (fun r => r.set i (f (getCell r i)))⟩
  | none => df

/-- One successfully converted cell of `astype(int)`. -/
def astypeCell (v : Value) : Value :=
  match intOfCell v with
  | some z => .num (z : ℚ)
  | none => v

/-- One iteration of the loop of `encode_data` for column `c` with mapping `m`:
skip an absent column; otherwise replace by the mapping and try `astype(int)`,
which converts the whole column or — on ValueError — leaves it as replaced and
emits a warning (`some c` in the second component). -/
def encodeStep (df : DataFrame) (c : String) (m : List (String × ℤ)) :
    DataFrame × Option String :=
  match colIdx df c with
  | none => (df, none)
  | some i =>
    let df2 := mapColumn df c (replaceCell m)
    if df2.rows.all (fun r => (intOfCell (getCell r i)).isSome) then
      (mapColumn df2 c astypeCell, none)
    else (df2, some c)

/-- The loop of `encode_data` over a list of (column, mapping) pairs,
accumulating the dataframe and the warning messages. -/
def encodeFold (ms : List (String × List (String × ℤ)))
    (p : DataFrame × List String) : DataFrame × List String :=
  ms.foldl
    (fun p cm =>
      let r := encodeStep p.1 cm.1 cm.2
      (r.1, p.2 ++ r.2.toList))
    p

/-- `encode_data`: fold the fixed mapping table over the dataframe, collecting
the warning messages printed for failed integer conversions. -/
def encode_data (df : DataFrame) : DataFrame × List String :=
  encodeFold mappings (df, [])

/-! ### Driver `run_preprocessing` -/

inductive RunResult where
  | saved (df : DataFrame)
  | fileNotFoundMessage
  | genericErrorMessage
deriving DecidableEq, Repr

/-- The pipeline body of the `try` block after loading: clean, select, bin,
encode.  `encode_data` is total (it catches its own ValueError internally). -/
def runPipeline (df : DataFrame) : Option DataFrame :=
  (clean_data df).bind (fun d1 =>
    (select_features d1).bind (fun d2 =>
      (feature_engineering d2).map (fun d3 => (encode_data d3).1)))

/-- `run_preprocessing`: the input is `none` when the CSV file is missing
(`FileNotFoundError` from `load_data`); any exception from a pipeline step is
caught by the broad handler and reported as a generic error; otherwise the
processed dataframe is saved. -/
def run_preprocessing (input : Option DataFrame) : RunResult :=
  match input with
  | none => .fileNotFoundMessage
  | some df =>
    match runPipeline df with
    | some out => .saved out
    | none => .genericErrorMessage

/-! ### Basic lemmas about cells and column indices -/

theorem getCell_set_self : ∀ (r : List Value) (i : ℕ) (v : Value),
    i < r.length → getCell (r.set i v) i = v
  | _ :: _, 0, _, _ => rfl
  | _ :: r, i + 1, v, h => getCell_set_self r i v (Nat.lt_of_succ_lt_succ h)
  | [], _, _, h => absurd h (by simp)

theorem getCell_set_ne : ∀ (r : List Value) (i j : ℕ) (v : Value),
    i ≠ j → getCell (r.set i v) j = getCell r j
  | [], _, _, _, _ => rfl
  | _ :: _, 0, 0, _, hne => absurd rfl hne
  | _ :: _, 0, _ + 1, _, _ => rfl
  | _ :: _, _ + 1, 0, _, _ => rfl
  | _ :: r, i + 1, j + 1, v, hne =>
    getCell_set_ne r i j v (fun h => hne (by rw [h]))

theorem getCell_of_ge : ∀ (r : List Value) (i : ℕ), r.length ≤ i → getCell r i = .nan
  | [], _, _ => rfl
  | _ :: _, 0, h => absurd h (by simp)
  | _ :: r, i + 1, h => getCell_of_ge r i (Nat.le_of_succ_le_succ h)

/-- For any per-cell function fixing NaN, setting a cell to its image commutes
with reading it back, even on too-short (non-rectangular) rows. -/
theorem getCell_set_apply (r : List Value) (i : ℕ) (f : Value → Value)
    (hf : f .nan = .nan) : getCell (r.set i (f (getCell r i))) i = f (getCell r i) := by
  rcases Nat.lt_or_ge i r.length with h | h
  · exact getCell_set_self r i _ h
  · rw [List.set_eq_of_length_le h, getCell_of_ge r i h, hf]

theorem getCell_append_self : ∀ (a : List Value) (v : Value),
    getCell (a ++ [v]) a.length = v
  | [], _ => rfl
  | _ :: a, v => getCell_append_self a v

theorem getD_map_lt {α β : Type} (f : α → β) (d : β) (d' : α) :
    ∀ (l : List α) (i : ℕ), i < l.length → (l.map f).getD i d = f (l.getD i d')
  | [], _, h => absurd h (by simp)
  | _ :: _, 0, _ => rfl
  | _ :: l, i + 1, h => getD_map_lt f d d' l i (Nat.lt_of_succ_lt_succ h)

theorem findIdxFrom_lt_length : ∀ (l : List String) (c : String) (i : ℕ),
    findIdxFrom c l = some i → i < l.length := by
  intro l
  induction l with
  | nil => intro c i h; simp [findIdxFrom] at h
  | cons a t ih =>
    intro c i h
    by_cases hac : a = c
    · simp [findIdxFrom, hac] at h
      simp [List.length_cons]
      omega
    · simp [findIdxFrom, hac] at h
      obtain ⟨j, hj, rfl⟩ := h
      have := ih c j hj
      simp [List.length_cons]
      omega

theorem findIdxFrom_getD : ∀ (l : List String) (c : String) (i : ℕ),
    findIdxFrom c l = some i → l.getD i "" = c := by
  intro l
  induction l with
  | nil => intro c i h; simp [findIdxFrom] at h
  | cons a t ih =>
    intro c i h
    by_cases hac : a = c
    · simp [findIdxFrom, hac] at h
      subst h; simpa using hac
    · simp [findIdxFrom, hac] at h
      obtain ⟨j, hj, rfl⟩ := h
      simpa using ih c j hj

theorem findIdxFrom_inj {l : List String} {c c' : String} {i : ℕ}
    (h : findIdxFrom c l = some i) (h' : findIdxFrom c' l = some i) : c = c' := by
  have h1 := findIdxFrom_getD l c i h
  have h2 := findIdxFrom_getD l c' i h'
  rw [h1] at h2; exact h2

theorem findIdxFrom_isSome_iff : ∀ (l : List String) (c : String),
    (findIdxFrom c l).isSome ↔ c ∈ l := by
  intro l
  induction l with
  | nil => intro c; simp [findIdxFrom]
  | cons a t ih =>
    intro c
    by_cases hac : a = c
    · simp [findIdxFrom, hac]
    · simp only [findIdxFrom, hac, if_false, List.mem_cons]
      cases hft : findIdxFrom c t with
      | none =>
        have : c ∉ t := by
          intro hc
          have := (ih c).mpr hc
          rw [hft] at this; simp at this
        simp [this]
        exact fun h => hac h.symm
      | some j =>
        have : c ∈ t := by
          have : (findIdxFrom c t).isSome := by rw [hft]; rfl
          exact (ih c).mp this
        simp [this]

theorem findIdxFrom_eq_none {l : List String} {c : String} (h : c ∉ l) :
    findIdxFrom c l = none := by
  have := (findIdxFrom_isSome_iff l c).not.mpr h
  cases hf : findIdxFrom c l with
  | none => rfl
  | some i => rw [hf] at this; simp at this

theorem findIdxFrom_append_left : ∀ (l l' : List String) (c : String) (i : ℕ),
    findIdxFrom c l = some i → findIdxFrom c (l ++ l') = some i := by
  intro l
  induction l with
  | nil => intro l' c i h; simp [findIdxFrom] at h
  | cons a t ih =>
    intro l' c i h
    by_cases hac : a = c
    · simp [findIdxFrom, hac] at h ⊢
      exact h
    · simp [findIdxFrom, hac] at h ⊢
      obtain ⟨j, hj, rfl⟩ := h
      exact ⟨j, ih l' c j hj, rfl⟩

theorem findIdxFrom_append_right : ∀ (l l' : List String) (c : String),
    findIdxFrom c l = none →
    findIdxFrom c (l ++ l') = (findIdxFrom c l').map (· + l.length)
  | [], l', c, _ => by simp
  | a :: t, l', c, h => by
    by_cases hac : a = c
    · simp [findIdxFrom, hac] at h
    · have ht : findIdxFrom c t = none := by
        simp only [findIdxFrom, hac, if_false] at h
        cases hft : findIdxFrom c t with
        | none => rfl
        | some j => rw [hft] at h; simp at h
      have hstep : (a :: t) ++ l' = a :: (t ++ l') := rfl
      rw [hstep]
      show (if a = c then some 0 else (findIdxFrom c (t ++ l')).map (· + 1)) =
        (findIdxFrom c l').map (· + (a :: t).length)
      rw [if_neg hac, findIdxFrom_append_right t l' c ht]
      cases findIdxFrom c l' with
      | none => rfl
      | some j =>
        simp only [Option.map_some', List.length_cons]
        exact congrArg some (by omega)

theorem mem_eraseIdx_of_ne : ∀ (l : List String) (c c' : String) (i : ℕ),
    findIdxFrom c l = some i → c' ≠ c → c' ∈ l → c' ∈ l.eraseIdx i
  | [], _, _, _, h, _, _ => by simp [findIdxFrom] at h
  | a :: t, c, c', i, h, hne, hmem => by
    by_cases hac : a = c
    · simp only [findIdxFrom, hac, if_true] at h
      obtain rfl : (0 : ℕ) = i := Option.some.inj h
      rcases List.mem_cons.mp hmem with rfl | hm
      · exact absurd hac hne
      · simpa [List.eraseIdx_cons_zero] using hm
    · simp only [findIdxFrom, hac, if_false] at h
      cases hft : findIdxFrom c t with
      | none => rw [hft] at h; simp at h
      | some j =>
        rw [hft] at h
        simp only [Option.map_some'] at h
        obtain rfl : j + 1 = i := Option.some.inj h
        rcases List.mem_cons.mp hmem with rfl | hm
        · simp [List.eraseIdx_cons_succ]
        · have := mem_eraseIdx_of_ne t c c' j hft hne hm
          simp [List.eraseIdx_cons_succ, this]

theorem not_mem_eraseIdx_self : ∀ (l : List String) (c : String) (i : ℕ),
    l.Nodup → findIdxFrom c l = some i → c ∉ l.eraseIdx i
  | [], _, _, _, h => by simp [findIdxFrom] at h
  | a :: t, c, i, hnd, h => by
    by_cases hac : a = c
    · simp only [findIdxFrom, hac, if_true] at h
      obtain rfl : (0 : ℕ) = i := Option.some.inj h
      rw [List.eraseIdx_cons_zero]
      subst hac
      exact (List.nodup_cons.mp hnd).1
    · simp only [findIdxFrom, hac, if_false] at h
      cases hft : findIdxFrom c t with
      | none => rw [hft] at h; simp at h
      | some j =>
        rw [hft] at h
        simp only [Option.map_some'] at h
        obtain rfl : j + 1 = i := Option.some.inj h
        rw [List.eraseIdx_cons_succ]
        intro hmem
        rcases List.mem_cons.mp hmem with rfl | hm
        · exact hac rfl
        · exact not_mem_eraseIdx_self t c j (List.nodup_cons.mp hnd).2 hft hm

theorem optMap_length {α β : Type} (f : α → Option β) :
    ∀ (xs : List α) (ys : List β), optMap f xs = some ys → ys.length = xs.length
  | [], ys, h => by
    simp only [optMap] at h
    obtain rfl : ([] : List β) = ys := Option.some.inj h
    rfl
  | x :: xs, ys, h => by
    simp only [optMap] at h
    cases hx : f x with
    | none => rw [hx] at h; simp at h
    | some y =>
      rw [hx] at h
      cases hxs : optMap f xs with
      | none => rw [hxs] at h; simp at h
      | some ys' =>
        rw [hxs] at h
        obtain rfl : y :: ys' = ys := Option.some.inj h
        simp [optMap_length f xs ys' hxs]

theorem foldl_min_le : ∀ (xs : List ℚ) (x : ℚ), xs.foldl min x ≤ x
  | [], x => le_refl x
  | y :: xs, x => le_trans (foldl_min_le xs (min x y)) (min_le_left x y)

theorem foldl_min_le_mem : ∀ (xs : List ℚ) (x q : ℚ), q ∈ xs → xs.foldl min x ≤ q
  | [], _, _, h => absurd h (List.not_mem_nil _)
  | y :: xs, x, q, h => by
    rcases List.mem_cons.mp h with rfl | hm
    · exact le_trans (foldl_min_le xs (min x q)) (min_le_right x q)
    · exact foldl_min_le_mem xs (min x y) q hm

theorem listMin_le {qs : List ℚ} {mn : ℚ} (h : listMin qs = some mn) :
    ∀ q ∈ qs, mn ≤ q := by
  cases qs with
  | nil => simp [listMin] at h
  | cons x xs =>
    simp only [listMin] at h
    obtain rfl : xs.foldl min x = mn := Option.some.inj h
    intro q hq
    rcases List.mem_cons.mp hq with rfl | hm
    · exact foldl_min_le xs q
    · exact foldl_min_le_mem xs x q hm

theorem le_foldl_max : ∀ (xs : List ℚ) (x : ℚ), x ≤ xs.foldl max x
  | [], x => le_refl x
  | y :: xs, x => le_trans (le_max_left x y) (le_foldl_max xs (max x y))

theorem mem_le_foldl_max : ∀ (xs : List ℚ) (x q : ℚ), q ∈ xs → q ≤ xs.foldl max x
  | [], _, _, h => absurd h (List.not_mem_nil _)
  | y :: xs, x, q, h => by
    rcases List.mem_cons.mp h with rfl | hm
    · exact le_trans (le_max_right x q) (le_foldl_max xs (max x q))
    · exact mem_le_foldl_max xs (max x y) q hm

theorem le_listMax {qs : List ℚ} {mx : ℚ} (h : listMax qs = some mx) :
    ∀ q ∈ qs, q ≤ mx := by
  cases qs with
  | nil => simp [listMax] at h
  | cons x xs =>
    simp only [listMax] at h
    obtain rfl : xs.foldl max x = mx := Option.some.inj h
    intro q hq
    rcases List.mem_cons.mp hq with rfl | hm
    · exact le_foldl_max xs q
    · exact mem_le_foldl_max xs x q hm

theorem mem_zipWith {α β γ : Type} (f : α → β → γ) :
    ∀ (as : List α) (bs : List β) (x : γ), x ∈ List.zipWith f as bs →
      ∃ a ∈ as, ∃ b ∈ bs, x = f a b
  | [], _, x, h => by simp at h
  | _ :: _, [], x, h => by simp at h
  | a :: as, b :: bs, x, h => by
    rcases List.mem_cons.mp h with rfl | hm
    · exact ⟨a, List.mem_cons_self a as, b, List.mem_cons_self b bs, rfl⟩
    · obtain ⟨a', ha, b', hb, rfl⟩ := mem_zipWith f as bs x hm
      exact ⟨a', List.mem_cons_of_mem a ha, b', List.mem_cons_of_mem b hb, rfl⟩

/-! ### Lemmas about `encode_data` -/

theorem truncQ_intCast (z : ℤ) : truncQ (z : ℚ) = z := by
  unfold truncQ
  split
  · exact Int.floor_intCast z
  · exact Int.ceil_intCast z

theorem lookupMap_mem_snd {m : List (String × ℤ)} {k : String} {z : ℤ}
    (h : lookupMap m k = some z) : z ∈ m.map Prod.snd := by
  unfold lookupMap at h
  cases hf : m.find? (fun p => p.1 = k) with
  | none => rw [hf] at h; simp at h
  | some p =>
    rw [hf] at h
    simp only [Option.map_some'] at h
    obtain rfl : p.2 = z := Option.some.inj h
    exact List.mem_map_of_mem Prod.snd (List.mem_of_find?_eq_some hf)

theorem replaceCell_nan (m : List (String × ℤ)) : replaceCell m .nan = .nan := rfl

theorem astypeCell_nan : astypeCell .nan = .nan := rfl

theorem list_all_congr {α : Type} : ∀ (l : List α) (p q : α → Bool),
    (∀ x ∈ l, p x = q x) → l.all p = l.all q
  | [], _, _, _ => rfl
  | x :: l, p, q, h => by
    simp only [List.all_cons]
    rw [h x (List.mem_cons_self x l),
      list_all_congr l p q (fun y hy => h y (List.mem_cons_of_mem x hy))]

theorem list_all_map {α β : Type} (f : α → β) (p : β → Bool) :
    ∀ l : List α, (l.map f).all p = l.all (fun x => p (f x))
  | [] => rfl
  | x :: l => by simp only [List.map_cons, List.all_cons, list_all_map f p l]

theorem mapColumn_header (df : DataFrame) (c : String) (f : Value → Value) :
    (mapColumn df c f).header = df.header := by
  cases h : colIdx df c <;> simp [mapColumn, h]

theorem mapColumn_rows_length (df : DataFrame) (c : String) (f : Value → Value) :
    (mapColumn df c f).rows.length = df.rows.length := by
  cases h : colIdx df c <;> simp [mapColumn, h]

theorem colIdx_mapColumn (df : DataFrame) (c c' : String) (f : Value → Value) :
    colIdx (mapColumn df c f) c' = colIdx df c' := by
  unfold colIdx
  rw [mapColumn_header]

theorem getColumn_mapColumn_ne (df : DataFrame) {c c' : String} (f : Value → Value)
    (hne : c' ≠ c) : getColumn (mapColumn df c f) c' = getColumn df c' := by
  cases hc : colIdx df c with
  | none => simp [mapColumn, hc]
  | some i =>
    unfold getColumn
    rw [colIdx_mapColumn]
    cases hc' : colIdx df c' with
    | none => rfl
    | some j =>
      have hij : i ≠ j := by
        intro h
        subst h
        exact hne (findIdxFrom_inj hc hc').symm
      simp only [mapColumn, hc, Option.map_some']
      congr 1
      rw [List.map_map]
      exact List.map_congr_left (fun r _ => getCell_set_ne r i j _ hij)

theorem getColumn_mapColumn_self (df : DataFrame) (c : String) (f : Value → Value)
    (hf : f .nan = .nan) {i : ℕ} (hc : colIdx df c = some i) :
    getColumn (mapColumn df c f) c = some ((df.rows.map (fun r => getCell r i)).map f) := by
  unfold getColumn
  rw [colIdx_mapColumn, hc]
  simp only [mapColumn, hc, Option.map_some']
  congr 1
  rw [List.map_map, List.map_map]
  exact List.map_congr_left (fun r _ => getCell_set_apply r i f hf)

/-- The final contents of a mapped column: replaced by the mapping and then,
when every replaced cell converts, cast to integers (else left as replaced). -/
def encodedCol (m : List (String × ℤ)) (vs : List Value) : List Value :=
  if (vs.map (replaceCell m)).all (fun v => (intOfCell v).isSome) then
    (vs.map (replaceCell m)).map astypeCell
  else vs.map (replaceCell m)

theorem encodeStep_cond (df : DataFrame) {c : String} (m : List (String × ℤ))
    {i : ℕ} (hc : colIdx df c = some i) :
    (mapColumn df c (replaceCell m)).rows.all (fun r => (intOfCell (getCell r i)).isSome) =
      ((df.rows.map (fun r => getCell r i)).map (replaceCell m)).all
        (fun v => (intOfCell v).isSome) := by
  simp only [mapColumn, hc]
  rw [List.map_map, list_all_map, list_all_map]
  refine list_all_congr _ _ _ (fun r _ => ?_)
  simp only [Function.comp]
  rw [getCell_set_apply r i (replaceCell m) (replaceCell_nan m)]

theorem encodeStep_self (df : DataFrame) (c : String) (m : List (String × ℤ))
    {vs : List Value} (hvs : getColumn df c = some vs) :
    getColumn (encodeStep df c m).1 c = some (encodedCol m vs) := by
  unfold getColumn at hvs
  cases hc : colIdx df c with
  | none => rw [hc] at hvs; simp at hvs
  | some i =>
    rw [hc] at hvs
    simp only [Option.map_some'] at hvs
    obtain rfl : df.rows.map (fun r => getCell r i) = vs := Option.some.inj hvs
    have hcol2 : colIdx (mapColumn df c (replaceCell m)) c = some i := by
      rw [colIdx_mapColumn]; exact hc
    have hrepl := getColumn_mapColumn_self df c (replaceCell m) (replaceCell_nan m) hc
    have hcond := encodeStep_cond df m hc
    have hcol : (mapColumn df c (replaceCell m)).rows.map (fun r => getCell r i) =
        (df.rows.map (fun r => getCell r i)).map (replaceCell m) := by
      have h2 := hrepl
      unfold getColumn at h2
      rw [hcol2] at h2
      simpa using h2
    unfold encodeStep
    rw [hc]
    simp only
    rw [hcond]
    unfold encodedCol
    by_cases hall : ((df.rows.map (fun r => getCell r i)).map (replaceCell m)).all
        (fun v => (intOfCell v).isSome) = true
    · rw [if_pos hall, if_pos hall]
      show getColumn (mapColumn (mapColumn df c (replaceCell m)) c astypeCell) c = _
      rw [getColumn_mapColumn_self (mapColumn df c (replaceCell m)) c astypeCell
        astypeCell_nan hcol2]
      rw [hcol]
    · rw [if_neg hall, if_neg hall]
      exact hrepl

theorem encodeStep_warn (df : DataFrame) (c : String) (m : List (String × ℤ))
    {vs : List Value} (hvs : getColumn df c = some vs)
    (hfail : (vs.map (replaceCell m)).all (fun v => (intOfCell v).isSome) = false) :
    (encodeStep df c m).2 = some c := by
  unfold getColumn at hvs
  cases hc : colIdx df c with
  | none => rw [hc] at hvs; simp at hvs
  | some i =>
    rw [hc] at hvs
    simp only [Option.map_some'] at hvs
    obtain rfl : df.rows.map (fun r => getCell r i) = vs := Option.some.inj hvs
    have hcond := encodeStep_cond df m hc
    unfold encodeStep
    rw [hc]
    simp only
    rw [hcond]
    rw [if_neg (by simp only [hfail]; exact Bool.false_ne_true)]

theorem encodeStep_header (df : DataFrame) (c : String) (m : List (String × ℤ)) :
    (encodeStep df c m).1.header = df.header := by
  unfold encodeStep
  cases hc : colIdx df c with
  | none => rfl
  | some i =>
    simp only
    split
    · rw [mapColumn_header, mapColumn_header]
    · rw [mapColumn_header]

theorem encodeStep_rows_length (df : DataFrame) (c : String) (m : List (String × ℤ)) :
    (encodeStep df c m).1.rows.length = df.rows.length := by
  unfold encodeStep
  cases hc : colIdx df c with
  | none => rfl
  | some i =>
    simp only
    split
    · rw [mapColumn_rows_length, mapColumn_rows_length]
    · rw [mapColumn_rows_length]

theorem getColumn_encodeStep_ne (df : DataFrame) {c c' : String} (m : List (String × ℤ))
    (hne : c' ≠ c) : getColumn (encodeStep df c m).1 c' = getColumn df c' := by
  unfold encodeStep
  cases hc : colIdx df c with
  | none => rfl
  | some i =>
    simp only
    split
    · rw [getColumn_mapColumn_ne _ _ hne, getColumn_mapColumn_ne _ _ hne]
    · rw [getColumn_mapColumn_ne _ _ hne]

theorem encodeFold_cons (cm : String × List (String × ℤ))
    (ms : List (String × List (String × ℤ))) (p : DataFrame × List String) :
    encodeFold (cm :: ms) p =
      encodeFold ms ((encodeStep p.1 cm.1 cm.2).1, p.2 ++ (encodeStep p.1 cm.1 cm.2).2.toList) :=
  rfl

theorem encodeFold_header : ∀ (ms : List (String × List (String × ℤ)))
    (p : DataFrame × List String), (encodeFold ms p).1.header = p.1.header
  | [], _ => rfl
  | cm :: ms, p => by
    rw [encodeFold_cons, encodeFold_header ms _]
    exact encodeStep_header p.1 cm.1 cm.2

theorem encodeFold_rows_length : ∀ (ms : List (String × List (String × ℤ)))
    (p : DataFrame × List String), (encodeFold ms p).1.rows.length = p.1.rows.length
  | [], _ => rfl
  | cm :: ms, p => by
    rw [encodeFold_cons, encodeFold_rows_length ms _]
    exact encodeStep_rows_length p.1 cm.1 cm.2

theorem getColumn_encodeFold_not_mem : ∀ (ms : List (String × List (String × ℤ)))
    (p : DataFrame × List String) (c : String), (∀ cm ∈ ms, cm.1 ≠ c) →
    getColumn (encodeFold ms p).1 c = getColumn p.1 c
  | [], _, _, _ => rfl
  | cm :: ms, p, c, h => by
    rw [encodeFold_cons,
      getColumn_encodeFold_not_mem ms _ c (fun x hx => h x (List.mem_cons_of_mem cm hx))]
    exact getColumn_encodeStep_ne p.1 cm.2
      (fun he => (h cm (List.mem_cons_self cm ms)) he.symm)

theorem getColumn_encodeFold_mem : ∀ (ms : List (String × List (String × ℤ)))
    (p : DataFrame × List String) (c : String) (m : List (String × ℤ)) (vs : List Value),
    (ms.map Prod.fst).Nodup → (c, m) ∈ ms → getColumn p.1 c = some vs →
    getColumn (encodeFold ms p).1 c = some (encodedCol m vs)
  | [], _, _, _, _, _, hmem, _ => absurd hmem (List.not_mem_nil _)
  | cm :: ms, p, c, m, vs, hnd, hmem, hvs => by
    rw [List.map_cons] at hnd
    rcases List.mem_cons.mp hmem with heq | hm
    · obtain rfl : cm = (c, m) := heq.symm
      rw [encodeFold_cons]
      have hrest : ∀ x ∈ ms, x.1 ≠ c := by
        intro x hx he
        have hmm : x.1 ∈ ms.map Prod.fst := List.mem_map_of_mem Prod.fst hx
        rw [he] at hmm
        exact (List.nodup_cons.mp hnd).1 hmm
      rw [getColumn_encodeFold_not_mem ms _ c hrest]
      exact encodeStep_self p.1 c m hvs
    · have hc1 : cm.1 ≠ c := by
        intro he
        have hmm : c ∈ ms.map Prod.fst := by
          have := List.mem_map_of_mem Prod.fst hm
          simpa using this
        exact (List.nodup_cons.mp hnd).1 (he ▸ hmm)
      rw [encodeFold_cons]
      exact getColumn_encodeFold_mem ms _ c m vs (List.nodup_cons.mp hnd).2 hm
        (by rw [getColumn_encodeStep_ne p.1 cm.2 (fun hh => hc1 hh.symm)]; exact hvs)

theorem mem_warns_encodeFold : ∀ (ms : List (String × List (String × ℤ)))
    (p : DataFrame × List String) (x : String), x ∈ p.2 → x ∈ (encodeFold ms p).2
  | [], _, _, h => h
  | cm :: ms, p, x, h => by
    rw [encodeFold_cons]
    exact mem_warns_encodeFold ms _ x (List.mem_append_left _ h)

theorem warn_encodeFold_mem : ∀ (ms : List (String × List (String × ℤ)))
    (p : DataFrame × List String) (c : String) (m : List (String × ℤ)) (vs : List Value),
    (ms.map Prod.fst).Nodup → (c, m) ∈ ms → getColumn p.1 c = some vs →
    (vs.map (replaceCell m)).all (fun v => (intOfCell v).isSome) = false →
    c ∈ (encodeFold ms p).2
  | [], _, _, _, _, _, hmem, _, _ => absurd hmem (List.not_mem_nil _)
  | cm :: ms, p, c, m, vs, hnd, hmem, hvs, hfail => by
    rw [List.map_cons] at hnd
    rcases List.mem_cons.mp hmem with heq | hm
    · obtain rfl : cm = (c, m) := heq.symm
      rw [encodeFold_cons]
      refine mem_warns_encodeFold ms _ c (List.mem_append_right _ ?_)
      rw [encodeStep_warn p.1 c m hvs hfail]
      exact List.mem_cons_self c []
    · have hc1 : cm.1 ≠ c := by
        intro he
        have hmm : c ∈ ms.map Prod.fst := by
          have := List.mem_map_of_mem Prod.fst hm
          simpa using this
        exact (List.nodup_cons.mp hnd).1 (he ▸ hmm)
      rw [encodeFold_cons]
      exact warn_encodeFold_mem ms _ c m vs (List.nodup_cons.mp hnd).2 hm
        (by rw [getColumn_encodeStep_ne p.1 cm.2 (fun hh => hc1 hh.symm)]; exact hvs) hfail

theorem encodedCol_getD {m : List (String × ℤ)} {vs : List Value} {n : ℕ} {k : String}
    {z : ℤ} (hn : n < vs.length) (hk : vs.getD n .nan = .str k)
    (hz : lookupMap m k = some z) :
    (encodedCol m vs).getD n .nan = .num (z : ℚ) := by
  unfold encodedCol
  have hrv : (vs.map (replaceCell m)).getD n .nan = .num (z : ℚ) := by
    rw [getD_map_lt (replaceCell m) .nan .nan vs n hn, hk]
    simp [replaceCell, hz]
  split
  · rw [getD_map_lt astypeCell .nan .nan _ n (by simpa using hn), hrv]
    simp [astypeCell, intOfCell, truncQ_intCast]
  · exact hrv

theorem encodedCol_codomain {m : List (String × ℤ)} {vs : List Value}
    (hall : ∀ v ∈ vs, ∃ k z, v = Value.str k ∧ lookupMap m k = some z) :
    ∀ w ∈ encodedCol m vs, ∃ z ∈ m.map Prod.snd, w = Value.num (z : ℚ) := by
  unfold encodedCol
  have hcond : (vs.map (replaceCell m)).all (fun v => (intOfCell v).isSome) = true := by
    rw [List.all_eq_true]
    intro x hx
    obtain ⟨v, hv, rfl⟩ := List.mem_map.mp hx
    obtain ⟨k, z, rfl, hz⟩ := hall v hv
    simp [replaceCell, hz, intOfCell]
  rw [if_pos hcond]
  intro w hw
  obtain ⟨x, hx, rfl⟩ := List.mem_map.mp hw
  obtain ⟨v, hv, rfl⟩ := List.mem_map.mp hx
  obtain ⟨k, z, rfl, hz⟩ := hall v hv
  refine ⟨z, lookupMap_mem_snd hz, ?_⟩
  simp [replaceCell, hz, astypeCell, intOfCell, truncQ_intCast]

/-! ### Claim theorems: encoding -/

theorem mappings_keys_nodup : (mappings.map Prod.fst).Nodup := by decide

/-- C9: `encode_data` leaves the `SeniorCitizen` column unchanged — the mapping
table has no entry for it, so the loop never touches it (and the header is
unchanged as well). -/
theorem encode_data_preserves_seniorCitizen (df : DataFrame) :
    (encode_data df).1.header = df.header ∧
    getColumn (encode_data df).1 "SeniorCitizen" = getColumn df "SeniorCitizen" := by
  constructor
  · exact encodeFold_header mappings (df, [])
  · exact getColumn_encodeFold_not_mem mappings (df, []) _ (by decide)

/-- C2: after `encode_data`, a column with an entry in the fixed mapping table
contains only integers from the integer codomain of its mapping, provided every
value of the column appears as a key of the mapping. -/
theorem encode_data_codomain (df : DataFrame) (c : String) (m : List (String × ℤ))
    (vs : List Value) (hm : (c, m) ∈ mappings) (hvs : getColumn df c = some vs)
    (hall : ∀ v ∈ vs, ∃ k z, v = Value.str k ∧ lookupMap m k = some z) :
    ∃ ws, getColumn (encode_data df).1 c = some ws ∧
      ∀ w ∈ ws, ∃ z ∈ m.map Prod.snd, w = Value.num (z : ℚ) :=
  ⟨encodedCol m vs,
    getColumn_encodeFold_mem mappings (df, []) c m vs mappings_keys_nodup hm hvs,
    encodedCol_codomain hall⟩

theorem encode_data_codomain_witness :
    (("Churn", [("No", (0 : ℤ)), ("Yes", 1)]) ∈ mappings) ∧
    ∃ ws, getColumn (encode_data ⟨["Churn"], [[.str "No"], [.str "Yes"]]⟩).1 "Churn" =
        some ws ∧
      ∀ w ∈ ws, ∃ z ∈ ([("No", (0 : ℤ)), ("Yes", 1)] : List (String × ℤ)).map Prod.snd,
        w = Value.num (z : ℚ) := by
  refine ⟨by decide, ?_⟩
  refine encode_data_codomain ⟨["Churn"], [[.str "No"], [.str "Yes"]]⟩ "Churn"
    [("No", 0), ("Yes", 1)] [.str "No", .str "Yes"] (by decide) (by decide) ?_
  intro v hv
  simp only [List.mem_cons, List.not_mem_nil, or_false] at hv
  rcases hv with rfl | rfl
  · exact ⟨"No", 0, rfl, by decide⟩
  · exact ⟨"Yes", 1, rfl, by decide⟩

/-- C4: the integer a mapped label encodes to is a constant of the mapping
table — two runs of `encode_data` on any two dataframes encode the same label
in the same mapped column to the same integer. -/
theorem encode_data_deterministic (df1 df2 : DataFrame) (c : String)
    (m : List (String × ℤ)) (vs1 vs2 : List Value) (n1 n2 : ℕ) (k : String) (z : ℤ)
    (hm : (c, m) ∈ mappings)
    (h1 : getColumn df1 c = some vs1) (h2 : getColumn df2 c = some vs2)
    (hn1 : n1 < vs1.length) (hn2 : n2 < vs2.length)
    (hk1 : vs1.getD n1 .nan = .str k) (hk2 : vs2.getD n2 .nan = .str k)
    (hz : lookupMap m k = some z) :
    ∃ ws1 ws2, getColumn (encode_data df1).1 c = some ws1 ∧
      getColumn (encode_data df2).1 c = some ws2 ∧
      ws1.getD n1 .nan = .num (z : ℚ) ∧ ws2.getD n2 .nan = .num (z : ℚ) :=
  ⟨encodedCol m vs1, encodedCol m vs2,
    getColumn_encodeFold_mem mappings (df1, []) c m vs1 mappings_keys_nodup hm h1,
    getColumn_encodeFold_mem mappings (df2, []) c m vs2 mappings_keys_nodup hm h2,
    encodedCol_getD hn1 hk1 hz, encodedCol_getD hn2 hk2 hz⟩

theorem encode_data_deterministic_witness :
    ∃ ws1 ws2,
      getColumn (encode_data ⟨["Contract"], [[.str "One year"], [.str "Two year"]]⟩).1
        "Contract" = some ws1 ∧
      getColumn (encode_data ⟨["Contract", "Churn"],
        [[.str "Month-to-month", .str "No"], [.str "One year", .str "Yes"]]⟩).1
        "Contract" = some ws2 ∧
      ws1.getD 0 .nan = .num ((1 : ℤ) : ℚ) ∧ ws2.getD 1 .nan = .num ((1 : ℤ) : ℚ) :=
  encode_data_deterministic
    ⟨["Contract"], [[.str "One year"], [.str "Two year"]]⟩
    ⟨["Contract", "Churn"],
      [[.str "Month-to-month", .str "No"], [.str "One year", .str "Yes"]]⟩
    "Contract" [("Month-to-month", 0), ("One year", 1), ("Two year", 2)]
    [.str "One year", .str "Two year"] [.str "Month-to-month", .str "One year"]
    0 1 "One year" 1 (by decide) (by decide) (by decide) (by decide) (by decide)
    (by decide) (by decide) (by decide)

/-! ### Claim theorems: `select_features` -/

/-- C5: when every selected column is present, the result of `select_features`
has exactly the eight fixed columns, in order, and no others. -/
theorem select_features_columns (df : DataFrame) (df' : DataFrame)
    (h : select_features df = some df') : df'.header = selected_columns := by
  unfold select_features at h
  split at h
  · exact (congrArg DataFrame.header (Option.some.inj h)).symm ▸ rfl
  · exact absurd h (by simp)

/-- A nine-column example input used by witness instances. -/
def wdfSelect : DataFrame :=
  ⟨["InternetService", "OnlineSecurity", "TechSupport", "Contract",
    "PaymentMethod", "SeniorCitizen", "MonthlyCharges", "Churn", "Extra"],
   [[.str "DSL", .str "No", .str "No", .str "Month-to-month",
     .str "Mailed check", .num 0, .num 50, .str "No", .str "x"]]⟩

theorem select_features_columns_witness :
    ∃ df', select_features wdfSelect = some df' ∧ df'.header = selected_columns :=
  ⟨projectCols wdfSelect selected_columns, by decide,
    select_features_columns wdfSelect (projectCols wdfSelect selected_columns)
      (by decide)⟩

/-! ### Claim theorems: `clean_data` -/

theorem hasNanRow_of_getCell {r : List Value} {j : ℕ} (hj : j < r.length)
    (h : getCell r j = .nan) : hasNanRow r = true := by
  unfold hasNanRow
  rw [List.any_eq_true]
  refine ⟨getCell r j, ?_, by rw [h]; rfl⟩
  unfold getCell
  rw [List.getD_eq_getElem r .nan hj]
  exact List.getElem_mem hj

theorem getCell_lt_length {r : List Value} {j : ℕ} {s : String}
    (h : getCell r j = .str s) : j < r.length := by
  by_contra hge
  rw [getCell_of_ge r j (Nat.le_of_not_lt hge)] at h
  exact Value.noConfusion h

/-- C1: on an input whose `TotalCharges` column holds strings, every row that
survives `clean_data` carries the parsed (whitespace-stripped) numeric value of
its original `TotalCharges` string, and rows whose string failed to parse
(coerced to NaN) cannot survive — every surviving row is the NaN-free update of
an input row whose parse succeeded. -/
theorem clean_data_totalCharges (df df' : DataFrame) (i : ℕ)
    (hcol : colIdx df "TotalCharges" = some i)
    (hstr : ∀ r ∈ df.rows, ∃ s, getCell r i = Value.str s)
    (hcl : clean_data df = some df') :
    df'.header = df.header ∧
    ∀ r' ∈ df'.rows, ∃ r ∈ df.rows, ∃ s q, getCell r i = Value.str s ∧
      parseRat (strTrim s) = some q ∧ getCell r' i = Value.num q ∧
      r' = r.set i (Value.num q) := by
  unfold clean_data at hcl
  rw [hcol] at hcl
  simp only at hcl
  split at hcl
  · obtain rfl : (⟨df.header,
        (df.rows.map (fun r => r.set i (toNumericStripped (getCell r i)))).filter
          (fun r => ! hasNanRow r)⟩ : DataFrame) = df' := Option.some.inj hcl
    refine ⟨rfl, ?_⟩
    intro r' hr'
    obtain ⟨hmem, hpred⟩ := List.mem_filter.mp hr'
    obtain ⟨r, hr, rfl⟩ := List.mem_map.mp hmem
    obtain ⟨s, hs⟩ := hstr r hr
    have hlt : i < r.length := getCell_lt_length hs
    cases hp : parseRat (strTrim s) with
    | none =>
      exfalso
      have hnan : toNumericStripped (getCell r i) = .nan := by
        rw [hs]
        simp [toNumericStripped, hp]
      have : hasNanRow (r.set i (toNumericStripped (getCell r i))) = true := by
        refine hasNanRow_of_getCell (j := i) (by simpa using hlt) ?_
        rw [getCell_set_self _ _ _ (by simpa using hlt), hnan]
      rw [this] at hpred
      simp at hpred
    | some q =>
      have hnum : toNumericStripped (getCell r i) = .num q := by
        rw [hs]
        simp [toNumericStripped, hp]
      refine ⟨r, hr, s, q, hs, hp, ?_, by rw [hnum]⟩
      rw [hnum, getCell_set_self _ _ _ (by simpa using hlt)]
  · exact absurd hcl (by simp)

/-- Input with one parseable and one unparseable `TotalCharges` string. -/
def wdfClean : DataFrame := ⟨["TotalCharges"], [[.str " 29.85 "], [.str "abc"]]⟩

unseal Rat.add Rat.mul Rat.inv Rat.sub in
theorem clean_data_totalCharges_witness :
    ∃ df', clean_data wdfClean = some df' ∧ df'.header = wdfClean.header ∧
      ∀ r' ∈ df'.rows, ∃ r ∈ wdfClean.rows, ∃ s q, getCell r 0 = Value.str s ∧
        parseRat (strTrim s) = some q ∧ getCell r' 0 = Value.num q ∧
        r' = r.set 0 (Value.num q) :=
  ⟨⟨["TotalCharges"], [[.num (597/20)]]⟩, by decide,
    clean_data_totalCharges wdfClean ⟨["TotalCharges"], [[.num (597/20)]]⟩ 0 (by decide)
      (by
        intro r hr
        simp only [wdfClean, List.mem_cons, List.not_mem_nil, or_false] at hr
        rcases hr with rfl | rfl
        · exact ⟨" 29.85 ", rfl⟩
        · exact ⟨"abc", rfl⟩)
      (by decide)⟩

/-! ### Lemmas about the binning step -/

theorem cutAdj_pos (m : ℚ) : 0 < cutAdj m := by
  unfold cutAdj
  split_ifs with h
  · norm_num
  · have : 0 < |m| := abs_pos.mpr h
    linarith

/-- With a constant column, pandas widens the degenerate range and every value
lands in the middle bin. -/
theorem cutLabel_const (m q : ℚ) (h1 : m ≤ q) (h2 : q ≤ m) :
    cutLabel m m q = .str "Sedang" := by
  have hq : q = m := le_antisymm h2 h1
  subst hq
  have hpos := cutAdj_pos q
  simp only [cutLabel, cutE0, cutE1, cutE2, cutE3, eq_self_iff_true, if_true]
  rw [if_neg (by linarith), if_neg (by linarith), if_pos (by linarith)]

/-- For a non-degenerate range, the assigned label is exactly determined by the
two inner boundaries, which divide `[mn, mx]` evenly into three. -/
theorem cutLabel_lt_cases (mn mx q : ℚ) (h1 : mn ≤ q) (h2 : q ≤ mx) (hlt : mn < mx) :
    (cutLabel mn mx q = .str "Rendah" ↔ q ≤ mn + (mx - mn) / 3) ∧
    (cutLabel mn mx q = .str "Sedang" ↔
      mn + (mx - mn) / 3 < q ∧ q ≤ mn + 2 * (mx - mn) / 3) ∧
    (cutLabel mn mx q = .str "Tinggi" ↔ mn + 2 * (mx - mn) / 3 < q) := by
  have hne : mn ≠ mx := ne_of_lt hlt
  simp only [cutLabel, cutE0, cutE1, cutE2, cutE3, if_neg hne]
  rw [if_neg (show ¬ q ≤ mn - (mx - mn) / 1000 by linarith)]
  by_cases hA : q ≤ mn + (mx - mn) / 3
  · rw [if_pos hA]
    exact ⟨⟨fun _ => hA, fun _ => rfl⟩,
      ⟨fun h => absurd h (by decide), fun h => absurd hA (not_le.mpr h.1)⟩,
      ⟨fun h => absurd h (by decide),
        fun h => absurd hA (not_le.mpr (lt_of_le_of_lt (by linarith) h))⟩⟩
  · rw [if_neg hA]
    by_cases hB : q ≤ mn + 2 * (mx - mn) / 3
    · rw [if_pos hB]
      exact ⟨⟨fun h => absurd h (by decide), fun h => absurd h hA⟩,
        ⟨fun _ => ⟨not_le.mp hA, hB⟩, fun _ => rfl⟩,
        ⟨fun h => absurd h (by decide), fun h => absurd hB (not_le.mpr h)⟩⟩
    · rw [if_neg hB, if_pos (show q ≤ mx from h2)]
      exact ⟨⟨fun h => absurd h (by decide), fun h => absurd h hA⟩,
        ⟨fun h => absurd h (by decide), fun h => absurd h.2 hB⟩,
        ⟨fun _ => not_le.mp hB, fun _ => rfl⟩⟩

theorem cutLabel_mem (mn mx q : ℚ) (h1 : mn ≤ q) (h2 : q ≤ mx) :
    cutLabel mn mx q = .str "Rendah" ∨ cutLabel mn mx q = .str "Sedang" ∨
      cutLabel mn mx q = .str "Tinggi" := by
  by_cases hmm : mn = mx
  · subst hmm
    exact Or.inr (Or.inl (cutLabel_const mn q h1 h2))
  · have hlt : mn < mx := lt_of_le_of_ne (le_trans h1 h2) hmm
    simp only [cutLabel, cutE0, cutE1, cutE2, cutE3, if_neg hmm]
    rw [if_neg (show ¬ q ≤ mn - (mx - mn) / 1000 by linarith)]
    split_ifs with hA hB
    · exact Or.inl rfl
    · exact Or.inr (Or.inl rfl)
    · exact Or.inr (Or.inr rfl)

theorem cutLabel_ne_nan (mn mx q : ℚ) (h1 : mn ≤ q) (h2 : q ≤ mx) :
    cutLabel mn mx q ≠ .nan := by
  rcases cutLabel_mem mn mx q h1 h2 with h | h | h <;> rw [h] <;>
    exact fun hh => Value.noConfusion hh

/-! ### Structural lemmas about `feature_engineering` -/

theorem getColumn_projectCols (df : DataFrame) (cols : List String) (c : String)
    {idx : ℕ} (hidx : findIdxFrom c cols = some idx) :
    getColumn (projectCols df cols) c =
      some (df.rows.map (fun r => getCell r ((colIdx df c).getD 0))) := by
  have hc : colIdx (projectCols df cols) c = some idx := hidx
  unfold getColumn
  rw [hc]
  simp only [Option.map_some', projectCols]
  congr 1
  rw [List.map_map]
  refine List.map_congr_left (fun r _ => ?_)
  show getCell (cols.map (fun c' => getCell r ((colIdx df c').getD 0))) idx =
    getCell r ((colIdx df c).getD 0)
  unfold getCell
  rw [getD_map_lt _ Value.nan "" cols idx (findIdxFrom_lt_length cols c idx hidx),
    findIdxFrom_getD cols c idx hidx]

theorem zipWith_eraseIdx_getCell :
    ∀ (rows : List (List Value)) (vs : List Value) (i n : ℕ),
    (∀ r ∈ rows, i < r.length ∧ r.length - 1 = n) → rows.length = vs.length →
    ((List.zipWith (fun r v => r ++ [v]) rows vs).map (fun r => r.eraseIdx i)).map
      (fun r => getCell r n) = vs
  | [], [], _, _, _, _ => rfl
  | [], _ :: _, _, _, _, hl => by simp at hl
  | _ :: _, [], _, _, _, hl => by simp at hl
  | r :: rows, v :: vs, i, n, h, hl => by
    obtain ⟨hi, hn⟩ := h r (List.mem_cons_self r rows)
    simp only [List.zipWith_cons_cons, List.map_cons]
    congr 1
    · rw [List.eraseIdx_append_of_lt_length hi [v]]
      have hlen : (r.eraseIdx i).length = n := by
        rw [List.length_eraseIdx_of_lt hi]
        exact hn
      rw [← hlen]
      exact getCell_append_self _ v
    · exact zipWith_eraseIdx_getCell rows vs i n
        (fun x hx => h x (List.mem_cons_of_mem r hx)) (by simpa using hl)

/-- Full description of a successful `feature_engineering` run: the binned
column replaces the numeric `MonthlyCharges` values with `pd.cut` labels. -/
theorem feature_engineering_spec (df : DataFrame) (i : ℕ) (qs : List ℚ) (mn mx : ℚ)
    (hnd : df.header.Nodup) (hrect : Rect df)
    (hcol : colIdx df "MonthlyCharges" = some i)
    (hnc : "MonthlyCharges_Category" ∉ df.header)
    (hch : "Churn" ∈ df.header)
    (hqs : optMap asNum (df.rows.map (fun r => getCell r i)) = some qs)
    (hmn : listMin qs = some mn) (hmx : listMax qs = some mx) :
    ∃ df', feature_engineering df = some df' ∧
      getColumn df' "MonthlyCharges" = some (qs.map (cutLabel mn mx)) := by
  have hi : i < df.header.length := findIdxFrom_lt_length df.header _ i hcol
  have hlenq : qs.length = df.rows.length := by
    have := optMap_length asNum _ qs hqs
    simpa using this
  have hMCX : "MonthlyCharges" ∉ df.header.eraseIdx i :=
    not_mem_eraseIdx_self df.header _ i hnd hcol
  have hset : setColumn df "MonthlyCharges_Category" (qs.map (cutLabel mn mx)) =
      ⟨df.header ++ ["MonthlyCharges_Category"],
        List.zipWith (fun r v => r ++ [v]) df.rows (qs.map (cutLabel mn mx))⟩ := by
    unfold setColumn
    rw [show colIdx df "MonthlyCharges_Category" = none from findIdxFrom_eq_none hnc]
  have hdrop : ∀ R : List (List Value),
      dropColumn ⟨df.header ++ ["MonthlyCharges_Category"], R⟩ "MonthlyCharges" =
        ⟨df.header.eraseIdx i ++ ["MonthlyCharges_Category"],
          R.map (fun r => r.eraseIdx i)⟩ := by
    intro R
    unfold dropColumn
    rw [show colIdx (⟨df.header ++ ["MonthlyCharges_Category"], R⟩ : DataFrame)
        "MonthlyCharges" = some i from findIdxFrom_append_left df.header _ _ i hcol]
    show (⟨(df.header ++ ["MonthlyCharges_Category"]).eraseIdx i,
      R.map (fun r => r.eraseIdx i)⟩ : DataFrame) = _
    rw [List.eraseIdx_append_of_lt_length hi]
  have hren : ∀ R : List (List Value),
      renameColumn ⟨df.header.eraseIdx i ++ ["MonthlyCharges_Category"], R⟩
          "MonthlyCharges_Category" "MonthlyCharges" =
        ⟨df.header.eraseIdx i ++ ["MonthlyCharges"], R⟩ := by
    intro R
    unfold renameColumn
    congr 1
    rw [List.map_append]
    congr 1
    refine (List.map_congr_left ?_).trans (List.map_id _)
    intro c hc
    refine if_neg (fun he => hnc ?_)
    rw [← he]
    exact (List.eraseIdx_sublist df.header i).mem hc
  have hcol4 : findIdxFrom "MonthlyCharges"
      (df.header.eraseIdx i ++ ["MonthlyCharges"]) =
        some (df.header.eraseIdx i).length := by
    rw [findIdxFrom_append_right _ _ _ (findIdxFrom_eq_none hMCX)]
    simp [findIdxFrom]
  have hguard : "Churn" ∈ df.header.eraseIdx i ++ ["MonthlyCharges"] :=
    List.mem_append_left _
      (mem_eraseIdx_of_ne df.header "MonthlyCharges" "Churn" i hcol (by decide) hch)
  unfold feature_engineering
  rw [hcol]
  simp only [Option.some_bind]
  rw [hqs]
  simp only [Option.some_bind]
  rw [hmn]
  simp only [Option.some_bind]
  rw [hmx]
  simp only [Option.some_bind]
  unfold featureEngineerWith
  simp only
  rw [hset, hdrop, hren]
  rw [if_pos (show (colIdx (⟨df.header.eraseIdx i ++ ["MonthlyCharges"],
      (List.zipWith (fun r v => r ++ [v]) df.rows (qs.map (cutLabel mn mx))).map
        (fun r => r.eraseIdx i)⟩ : DataFrame) "Churn").isSome = true from
    (findIdxFrom_isSome_iff _ _).mpr hguard)]
  refine ⟨_, rfl, ?_⟩
  have hMCfilt : "MonthlyCharges" ∉
      (df.header.eraseIdx i).filter (fun c => c ≠ "Churn") :=
    fun hmem => hMCX (List.mem_of_mem_filter hmem)
  have hfiltMC : ((df.header.eraseIdx i ++ ["MonthlyCharges"]).filter
      (fun c => c ≠ "Churn")) =
      (df.header.eraseIdx i).filter (fun c => c ≠ "Churn") ++ ["MonthlyCharges"] := by
    rw [List.filter_append]
    congr 1
  have hcolsidx : findIdxFrom "MonthlyCharges"
      ((df.header.eraseIdx i ++ ["MonthlyCharges"]).filter (fun c => c ≠ "Churn") ++
        ["Churn"]) =
      some ((df.header.eraseIdx i).filter (fun c => c ≠ "Churn")).length := by
    rw [hfiltMC, List.append_assoc,
      findIdxFrom_append_right _ _ _ (findIdxFrom_eq_none hMCfilt)]
    simp [findIdxFrom]
  rw [getColumn_projectCols _ _ _ hcolsidx]
  congr 1
  rw [show colIdx (⟨df.header.eraseIdx i ++ ["MonthlyCharges"],
      (List.zipWith (fun r v => r ++ [v]) df.rows (qs.map (cutLabel mn mx))).map
        (fun r => r.eraseIdx i)⟩ : DataFrame) "MonthlyCharges" =
      some (df.header.eraseIdx i).length from hcol4]
  simp only [Option.getD_some]
  refine zipWith_eraseIdx_getCell df.rows (qs.map (cutLabel mn mx)) i
    (df.header.eraseIdx i).length ?_ (by simp [← hlenq])
  intro r hr
  rw [hrect r hr, List.length_eraseIdx_of_lt hi]
  exact ⟨hi, rfl⟩

/-- C3: after `feature_engineering` on a dataframe whose nonempty numeric
`MonthlyCharges` column has minimum `mn` and maximum `mx`, the column holds
only the labels Rendah/Sedang/Tinggi, and when the observed range is
non-degenerate the label of each value is decided exactly by the two
boundaries dividing `[mn, mx]` into three equal-width bins. -/
theorem feature_engineering_bins (df : DataFrame) (i : ℕ) (qs : List ℚ) (mn mx : ℚ)
    (hnd : df.header.Nodup) (hrect : Rect df)
    (hcol : colIdx df "MonthlyCharges" = some i)
    (hnc : "MonthlyCharges_Category" ∉ df.header)
    (hch : "Churn" ∈ df.header)
    (hqs : optMap asNum (df.rows.map (fun r => getCell r i)) = some qs)
    (hmn : listMin qs = some mn) (hmx : listMax qs = some mx) :
    ∃ df', feature_engineering df = some df' ∧
      getColumn df' "MonthlyCharges" = some (qs.map (cutLabel mn mx)) ∧
      (∀ v ∈ qs.map (cutLabel mn mx),
        v = Value.str "Rendah" ∨ v = Value.str "Sedang" ∨ v = Value.str "Tinggi") ∧
      (mn < mx → ∀ q ∈ qs,
        (cutLabel mn mx q = Value.str "Rendah" ↔ q ≤ mn + (mx - mn) / 3) ∧
        (cutLabel mn mx q = Value.str "Sedang" ↔
          mn + (mx - mn) / 3 < q ∧ q ≤ mn + 2 * (mx - mn) / 3) ∧
        (cutLabel mn mx q = Value.str "Tinggi" ↔ mn + 2 * (mx - mn) / 3 < q)) := by
  obtain ⟨df', h1, h2⟩ :=
    feature_engineering_spec df i qs mn mx hnd hrect hcol hnc hch hqs hmn hmx
  refine ⟨df', h1, h2, ?_, ?_⟩
  · intro v hv
    obtain ⟨q, hq, rfl⟩ := List.mem_map.mp hv
    exact cutLabel_mem mn mx q (listMin_le hmn q hq) (le_listMax hmx q hq)
  · intro hlt q hq
    exact cutLabel_lt_cases mn mx q (listMin_le hmn q hq) (le_listMax hmx q hq) hlt

/-- A small numeric `MonthlyCharges` dataframe for the binning witness. -/
def wdfBins : DataFrame :=
  ⟨["MonthlyCharges", "Churn"],
   [[.num 10, .str "No"], [.num 40, .str "Yes"], [.num 20, .str "No"]]⟩

unseal Rat.add Rat.mul Rat.inv Rat.sub in
theorem feature_engineering_bins_witness :
    ∃ df', feature_engineering wdfBins = some df' ∧
      getColumn df' "MonthlyCharges" =
        some (([10, 40, 20] : List ℚ).map (cutLabel 10 40)) ∧
      (∀ v ∈ ([10, 40, 20] : List ℚ).map (cutLabel 10 40),
        v = Value.str "Rendah" ∨ v = Value.str "Sedang" ∨ v = Value.str "Tinggi") ∧
      ((10 : ℚ) < 40 → ∀ q ∈ ([10, 40, 20] : List ℚ),
        (cutLabel 10 40 q = Value.str "Rendah" ↔ q ≤ 10 + (40 - 10) / 3) ∧
        (cutLabel 10 40 q = Value.str "Sedang" ↔
          10 + (40 - 10) / 3 < q ∧ q ≤ 10 + 2 * (40 - 10) / 3) ∧
        (cutLabel 10 40 q = Value.str "Tinggi" ↔ 10 + 2 * (40 - 10) / 3 < q)) :=
  feature_engineering_bins wdfBins 0 [10, 40, 20] 10 40 (by decide) (by decide)
    (by decide) (by decide) (by decide) (by decide) (by decide) (by decide)

/-! ### Claim theorems: driver error boundary -/

/-- C8: the driver's single broad exception boundary — a missing input file
prints the file-not-found message, an exception in any pipeline step prints the
generic error message, and a successful pipeline saves its output; these three
outcomes are exhaustive (no retry or recovery path exists). -/
theorem run_preprocessing_boundary :
    run_preprocessing none = RunResult.fileNotFoundMessage ∧
    (∀ df, runPipeline df = none →
      run_preprocessing (some df) = RunResult.genericErrorMessage) ∧
    (∀ df out, runPipeline df = some out →
      run_preprocessing (some df) = RunResult.saved out) := by
  refine ⟨rfl, ?_, ?_⟩
  · intro df h
    show (match runPipeline df with
      | some out => RunResult.saved out
      | none => RunResult.genericErrorMessage) = RunResult.genericErrorMessage
    rw [h]
  · intro df out h
    show (match runPipeline df with
      | some out => RunResult.saved out
      | none => RunResult.genericErrorMessage) = RunResult.saved out
    rw [h]

theorem run_preprocessing_boundary_witness :
    runPipeline (⟨[], []⟩ : DataFrame) = none ∧
    run_preprocessing (some (⟨[], []⟩ : DataFrame)) = RunResult.genericErrorMessage :=
  ⟨by decide, run_preprocessing_boundary.2.1 ⟨[], []⟩ (by decide)⟩

/-! ### Claim theorems: unmapped values in `encode_data` -/

/-- C10 counterexample: `Churn` holds the integer 5, which is not a key of the
Churn mapping; `replace` leaves it, `astype(int)` succeeds (no ValueError, no
warning), and the output column holds only integers — against the claim that a
ValueError is caught and the column keeps non-integer values. -/
theorem encode_unmapped_counterexample :
    (encode_data ⟨["Churn"], [[Value.num 5]]⟩).2 = [] ∧
    (encode_data ⟨["Churn"], [[Value.num 5]]⟩).1 = ⟨["Churn"], [[Value.num 5]]⟩ :=
  ⟨by decide, by decide⟩

/-- C10 (amended): when a mapped column contains, after replacement, a value
that cannot be converted to int (such as a non-numeric string that is not a
mapping key), `encode_data` does not fail: the value passes through `replace`
unchanged, the ValueError of the integer conversion is caught and reported as a
warning, and the column of the (total) result still holds the replaced values,
including a non-integer one. -/
theorem encode_unmapped_graceful (df : DataFrame) (c : String) (m : List (String × ℤ))
    (vs : List Value) (v : Value)
    (hm : (c, m) ∈ mappings) (hvs : getColumn df c = some vs) (hv : v ∈ vs)
    (hbad : intOfCell (replaceCell m v) = none) :
    replaceCell m v = v ∧
    c ∈ (encode_data df).2 ∧
    ∃ ws, getColumn (encode_data df).1 c = some ws ∧
      ws = vs.map (replaceCell m) ∧
      ∃ w ∈ ws, ∀ z : ℤ, w ≠ Value.num (z : ℚ) := by
  have hfail : (vs.map (replaceCell m)).all (fun x => (intOfCell x).isSome) = false := by
    rw [List.all_eq_false]
    exact ⟨replaceCell m v, List.mem_map_of_mem _ hv, by rw [hbad]; simp⟩
  have hrepl : replaceCell m v = v := by
    cases v with
    | str s =>
      cases hl : lookupMap m s with
      | none => simp [replaceCell, hl]
      | some z =>
        rw [show replaceCell m (Value.str s) = Value.num (z : ℚ) by
          simp [replaceCell, hl]] at hbad
        simp [intOfCell] at hbad
    | num q => simp [replaceCell, intOfCell] at hbad
    | nan => rfl
  have hcol := getColumn_encodeFold_mem mappings (df, []) c m vs mappings_keys_nodup hm hvs
  have henc : encodedCol m vs = vs.map (replaceCell m) := by
    unfold encodedCol
    rw [if_neg (by simp only [hfail]; exact Bool.false_ne_true)]
  refine ⟨hrepl,
    warn_encodeFold_mem mappings (df, []) c m vs mappings_keys_nodup hm hvs hfail,
    vs.map (replaceCell m), by rw [← henc]; exact hcol, rfl,
    replaceCell m v, List.mem_map_of_mem _ hv, ?_⟩
  intro z hz
  rw [hz] at hbad
  simp [intOfCell] at hbad

theorem encode_unmapped_graceful_witness :
    replaceCell [("No", (0 : ℤ)), ("Yes", 1)] (Value.str "Maybe") = Value.str "Maybe" ∧
    "Churn" ∈ (encode_data ⟨["Churn"], [[.str "Maybe"], [.str "No"]]⟩).2 ∧
    ∃ ws, getColumn (encode_data ⟨["Churn"], [[.str "Maybe"], [.str "No"]]⟩).1 "Churn" =
        some ws ∧
      ws = ([.str "Maybe", .str "No"] : List Value).map
        (replaceCell [("No", (0 : ℤ)), ("Yes", 1)]) ∧
      ∃ w ∈ ws, ∀ z : ℤ, w ≠ Value.num (z : ℚ) :=
  encode_unmapped_graceful ⟨["Churn"], [[.str "Maybe"], [.str "No"]]⟩ "Churn"
    [("No", 0), ("Yes", 1)] [.str "Maybe", .str "No"] (.str "Maybe")
    (by decide) (by decide) (by decide) (by decide)

/-! ### Rectangularity and NaN-freedom preservation -/

theorem noNan_of_hasNanRow_false {r : List Value} (h : hasNanRow r = false) :
    ∀ v ∈ r, v ≠ Value.nan := by
  intro v hv he
  subst he
  have := List.any_eq_false.mp h _ hv
  simp [isNan] at this

theorem clean_data_rect_noNan (df df' : DataFrame) (hcl : clean_data df = some df')
    (hrect : Rect df) : Rect df' ∧ NoNan df' := by
  unfold clean_data at hcl
  cases hcol : colIdx df "TotalCharges" with
  | none => rw [hcol] at hcl; simp at hcl
  | some i =>
    rw [hcol] at hcl
    simp only at hcl
    split at hcl
    · obtain rfl : (⟨df.header,
          (df.rows.map (fun r => r.set i (toNumericStripped (getCell r i)))).filter
            (fun r => ! hasNanRow r)⟩ : DataFrame) = df' := Option.some.inj hcl
      constructor
      · intro r' hr'
        obtain ⟨r, hr, rfl⟩ := List.mem_map.mp (List.mem_of_mem_filter hr')
        show (r.set i (toNumericStripped (getCell r i))).length = df.header.length
        rw [List.length_set]
        exact hrect r hr
      · intro r' hr'
        have hpred := List.of_mem_filter hr'
        refine noNan_of_hasNanRow_false ?_
        cases hh : hasNanRow r' with
        | false => rfl
        | true => rw [hh] at hpred; simp at hpred
    · exact absurd hcl (by simp)

theorem projectCols_rect_noNan (df : DataFrame) (cols : List String)
    (hall : ∀ c ∈ cols, (colIdx df c).isSome) (hrect : Rect df) (hnn : NoNan df) :
    Rect (projectCols df cols) ∧ NoNan (projectCols df cols) := by
  constructor
  · intro r' hr'
    obtain ⟨r, _, rfl⟩ := List.mem_map.mp hr'
    simp [projectCols]
  · intro r' hr' v hv
    obtain ⟨r, hr, rfl⟩ := List.mem_map.mp hr'
    obtain ⟨c, hc, rfl⟩ := List.mem_map.mp hv
    cases hcc : colIdx df c with
    | none =>
      have hcon := hall c hc
      rw [hcc] at hcon
      simp at hcon
    | some j =>
      simp only [Option.getD_some]
      have hj : j < r.length := by
        rw [hrect r hr]
        exact findIdxFrom_lt_length df.header c j hcc
      have : getCell r j ∈ r := by
        unfold getCell
        rw [List.getD_eq_getElem r Value.nan hj]
        exact List.getElem_mem hj
      exact hnn r hr _ this

theorem select_features_rect_noNan (df df' : DataFrame)
    (h : select_features df = some df') (hrect : Rect df) (hnn : NoNan df) :
    Rect df' ∧ NoNan df' := by
  unfold select_features at h
  split at h
  · obtain rfl : projectCols df selected_columns = df' := Option.some.inj h
    refine projectCols_rect_noNan df selected_columns ?_ hrect hnn
    intro c hc
    exact List.all_eq_true.mp (by assumption) c hc
  · exact absurd h (by simp)

theorem setColumn_rect_noNan (df : DataFrame) (c : String) (vs : List Value)
    (hvs : ∀ v ∈ vs, v ≠ Value.nan) (hrect : Rect df) (hnn : NoNan df) :
    Rect (setColumn df c vs) ∧ NoNan (setColumn df c vs) := by
  unfold setColumn
  cases hcc : colIdx df c with
  | some i =>
    constructor
    · intro r' hr'
      obtain ⟨r, hr, v, _, rfl⟩ := mem_zipWith _ df.rows vs r' hr'
      show (r.set i v).length = df.header.length
      rw [List.length_set]
      exact hrect r hr
    · intro r' hr' x hx
      obtain ⟨r, hr, v, hv, rfl⟩ := mem_zipWith _ df.rows vs r' hr'
      rcases List.mem_or_eq_of_mem_set hx with hxr | rfl
      · exact hnn r hr x hxr
      · exact hvs _ hv
  | none =>
    constructor
    · intro r' hr'
      obtain ⟨r, hr, v, _, rfl⟩ := mem_zipWith _ df.rows vs r' hr'
      show (r ++ [v]).length = (df.header ++ [c]).length
      simp [hrect r hr]
    · intro r' hr' x hx
      obtain ⟨r, hr, v, hv, rfl⟩ := mem_zipWith _ df.rows vs r' hr'
      rcases List.mem_append.mp hx with hxr | hxv
      · exact hnn r hr x hxr
      · rw [List.mem_singleton.mp hxv]
        exact hvs _ hv

theorem dropColumn_rect_noNan (df : DataFrame) (c : String)
    (hrect : Rect df) (hnn : NoNan df) :
    Rect (dropColumn df c) ∧ NoNan (dropColumn df c) := by
  unfold dropColumn
  cases hcc : colIdx df c with
  | some i =>
    have hi : i < df.header.length := findIdxFrom_lt_length df.header c i hcc
    constructor
    · intro r' hr'
      obtain ⟨r, hr, rfl⟩ := List.mem_map.mp hr'
      show (r.eraseIdx i).length = (df.header.eraseIdx i).length
      rw [List.length_eraseIdx_of_lt hi, List.length_eraseIdx_of_lt (by rw [hrect r hr]; exact hi),
        hrect r hr]
    · intro r' hr' x hx
      obtain ⟨r, hr, rfl⟩ := List.mem_map.mp hr'
      exact hnn r hr x ((List.eraseIdx_sublist r i).mem hx)
  | none => exact ⟨hrect, hnn⟩

theorem renameColumn_rect_noNan (df : DataFrame) (o n : String)
    (hrect : Rect df) (hnn : NoNan df) :
    Rect (renameColumn df o n) ∧ NoNan (renameColumn df o n) := by
  constructor
  · intro r hr
    show r.length = (df.header.map _).length
    rw [List.length_map]
    exact hrect r hr
  · exact hnn

theorem feature_engineering_rect_noNan (df df' : DataFrame)
    (h : feature_engineering df = some df') (hrect : Rect df) (hnn : NoNan df) :
    Rect df' ∧ NoNan df' := by
  unfold feature_engineering at h
  cases hcol : colIdx df "MonthlyCharges" with
  | none => rw [hcol] at h; simp at h
  | some i =>
    rw [hcol] at h
    simp only [Option.some_bind] at h
    cases hqs : optMap asNum (df.rows.map (fun r => getCell r i)) with
    | none => rw [hqs] at h; simp at h
    | some qs =>
      rw [hqs] at h
      simp only [Option.some_bind] at h
      cases hmn : listMin qs with
      | none => rw [hmn] at h; simp at h
      | some mn =>
        rw [hmn] at h
        simp only [Option.some_bind] at h
        cases hmx : listMax qs with
        | none => rw [hmx] at h; simp at h
        | some mx =>
          rw [hmx] at h
          simp only [Option.some_bind] at h
          unfold featureEngineerWith at h
          simp only at h
          split at h
          · obtain rfl := Option.some.inj h
            have hlab : ∀ v ∈ qs.map (cutLabel mn mx), v ≠ Value.nan := by
              intro v hv
              obtain ⟨q, hq, rfl⟩ := List.mem_map.mp hv
              exact cutLabel_ne_nan mn mx q (listMin_le hmn q hq) (le_listMax hmx q hq)
            have h2 := setColumn_rect_noNan df "MonthlyCharges_Category"
              (qs.map (cutLabel mn mx)) hlab hrect hnn
            have h3 := dropColumn_rect_noNan _ "MonthlyCharges" h2.1 h2.2
            have h4 := renameColumn_rect_noNan _ "MonthlyCharges_Category"
              "MonthlyCharges" h3.1 h3.2
            refine projectCols_rect_noNan _ _ ?_ h4.1 h4.2
            intro c hc
            rcases List.mem_append.mp hc with hcf | hcc
            · exact (findIdxFrom_isSome_iff _ _).mpr (List.mem_of_mem_filter hcf)
            · rw [List.mem_singleton.mp hcc]
              assumption
          · exact absurd h (by simp)

theorem mapColumn_rect_noNan (df : DataFrame) (c : String) (f : Value → Value)
    (hf : ∀ v, v ≠ Value.nan → f v ≠ Value.nan) (hrect : Rect df) (hnn : NoNan df) :
    Rect (mapColumn df c f) ∧ NoNan (mapColumn df c f) := by
  unfold mapColumn
  cases hcc : colIdx df c with
  | none => exact ⟨hrect, hnn⟩
  | some i =>
    constructor
    · intro r' hr'
      obtain ⟨r, hr, rfl⟩ := List.mem_map.mp hr'
      show (r.set i _).length = df.header.length
      rw [List.length_set]
      exact hrect r hr
    · intro r' hr' x hx
      obtain ⟨r, hr, rfl⟩ := List.mem_map.mp hr'
      rcases Nat.lt_or_ge i r.length with hlt | hge
      · rcases List.mem_or_eq_of_mem_set hx with hxr | rfl
        · exact hnn r hr x hxr
        · refine hf _ ?_
          have : getCell r i ∈ r := by
            unfold getCell
            rw [List.getD_eq_getElem r Value.nan hlt]
            exact List.getElem_mem hlt
          exact hnn r hr _ this
      · rw [List.set_eq_of_length_le hge] at hx
        exact hnn r hr x hx

theorem replaceCell_not_nan (m : List (String × ℤ)) (v : Value)
    (hv : v ≠ Value.nan) : replaceCell m v ≠ Value.nan := by
  cases v with
  | str s =>
    cases hl : lookupMap m s with
    | some z => simp [replaceCell, hl]
    | none => simp [replaceCell, hl]
  | num q => exact hv
  | nan => exact absurd rfl hv

theorem astypeCell_not_nan (v : Value) (hv : v ≠ Value.nan) :
    astypeCell v ≠ Value.nan := by
  cases hA : intOfCell v with
  | some z => simp [astypeCell, hA]
  | none => simpa [astypeCell, hA] using hv

theorem encodeStep_rect_noNan (df : DataFrame) (c : String) (m : List (String × ℤ))
    (hrect : Rect df) (hnn : NoNan df) :
    Rect (encodeStep df c m).1 ∧ NoNan (encodeStep df c m).1 := by
  unfold encodeStep
  cases hcc : colIdx df c with
  | none => exact ⟨hrect, hnn⟩
  | some i =>
    simp only
    have h2 := mapColumn_rect_noNan df c (replaceCell m) (replaceCell_not_nan m) hrect hnn
    split
    · exact mapColumn_rect_noNan _ c astypeCell astypeCell_not_nan h2.1 h2.2
    · exact h2

theorem encodeFold_rect_noNan : ∀ (ms : List (String × List (String × ℤ)))
    (p : DataFrame × List String), Rect p.1 → NoNan p.1 →
    Rect (encodeFold ms p).1 ∧ NoNan (encodeFold ms p).1
  | [], _, hrect, hnn => ⟨hrect, hnn⟩
  | cm :: ms, p, hrect, hnn => by
    rw [encodeFold_cons]
    have h2 := encodeStep_rect_noNan p.1 cm.1 cm.2 hrect hnn
    exact encodeFold_rect_noNan ms _ h2.1 h2.2

/-- C7: after cleaning the dataframe has no null values, and the NaN-free state
is preserved by selection, binning and encoding through to the saved output. -/
theorem pipeline_no_nulls :
    (∀ df df', clean_data df = some df' → Rect df → Rect df' ∧ NoNan df') ∧
    (∀ df df', select_features df = some df' → Rect df → NoNan df →
      Rect df' ∧ NoNan df') ∧
    (∀ df df', feature_engineering df = some df' → Rect df → NoNan df →
      Rect df' ∧ NoNan df') ∧
    (∀ df, Rect df → NoNan df →
      Rect (encode_data df).1 ∧ NoNan (encode_data df).1) :=
  ⟨fun df df' hcl hrect => clean_data_rect_noNan df df' hcl hrect,
   fun df df' h hrect hnn => select_features_rect_noNan df df' h hrect hnn,
   fun df df' h hrect hnn => feature_engineering_rect_noNan df df' h hrect hnn,
   fun df hrect hnn => encodeFold_rect_noNan mappings (df, []) hrect hnn⟩

unseal Rat.add Rat.mul Rat.inv Rat.sub in
theorem pipeline_no_nulls_witness :
    clean_data wdfClean = some ⟨["TotalCharges"], [[.num (597/20)]]⟩ ∧
    Rect wdfClean ∧
    NoNan (⟨["TotalCharges"], [[.num (597/20)]]⟩ : DataFrame) :=
  ⟨by decide, by decide,
    (pipeline_no_nulls.1 wdfClean ⟨["TotalCharges"], [[.num (597/20)]]⟩
      (by decide) (by decide)).2⟩

/-! ### Claim theorems: end-to-end output shape -/

theorem clean_data_spec (df df' : DataFrame) (hcl : clean_data df = some df') :
    ∃ i, colIdx df "TotalCharges" = some i ∧ df'.header = df.header ∧
      df'.rows = (df.rows.map (fun r => r.set i (toNumericStripped (getCell r i)))).filter
        (fun r => ! hasNanRow r) := by
  unfold clean_data at hcl
  cases hcol : colIdx df "TotalCharges" with
  | none => rw [hcol] at hcl; simp at hcl
  | some i =>
    rw [hcol] at hcl
    simp only at hcl
    split at hcl
    · obtain rfl := Option.some.inj hcl
      exact ⟨i, rfl, rfl, rfl⟩
    · exact absurd hcl (by simp)

theorem select_features_spec (df df' : DataFrame) (h : select_features df = some df') :
    df'.header = selected_columns ∧ df'.rows.length = df.rows.length := by
  unfold select_features at h
  split at h
  · obtain rfl := Option.some.inj h
    exact ⟨rfl, by simp [projectCols]⟩
  · exact absurd h (by simp)

theorem setColumn_rows_length (df : DataFrame) (c : String) (vs : List Value) :
    (setColumn df c vs).rows.length = min df.rows.length vs.length := by
  unfold setColumn
  cases colIdx df c <;> simp

theorem dropColumn_rows_length (df : DataFrame) (c : String) :
    (dropColumn df c).rows.length = df.rows.length := by
  unfold dropColumn
  cases colIdx df c <;> simp

theorem feature_engineering_len_churn (df df' : DataFrame)
    (h : feature_engineering df = some df') :
    df'.rows.length = df.rows.length ∧ ∃ X, df'.header = X ++ ["Churn"] := by
  unfold feature_engineering at h
  cases hcol : colIdx df "MonthlyCharges" with
  | none => rw [hcol] at h; simp at h
  | some i =>
    rw [hcol] at h
    simp only [Option.some_bind] at h
    cases hqs : optMap asNum (df.rows.map (fun r => getCell r i)) with
    | none => rw [hqs] at h; simp at h
    | some qs =>
      rw [hqs] at h
      simp only [Option.some_bind] at h
      cases hmn : listMin qs with
      | none => rw [hmn] at h; simp at h
      | some mn =>
        rw [hmn] at h
        simp only [Option.some_bind] at h
        cases hmx : listMax qs with
        | none => rw [hmx] at h; simp at h
        | some mx =>
          rw [hmx] at h
          simp only [Option.some_bind] at h
          have hlenq : qs.length = df.rows.length := by
            have := optMap_length asNum _ qs hqs
            simpa using this
          unfold featureEngineerWith at h
          simp only at h
          split at h
          · obtain rfl := Option.some.inj h
            constructor
            · show (projectCols _ _).rows.length = df.rows.length
              simp only [projectCols, List.length_map]
              show (renameColumn (dropColumn (setColumn df "MonthlyCharges_Category"
                (qs.map (cutLabel mn mx))) "MonthlyCharges") "MonthlyCharges_Category"
                  "MonthlyCharges").rows.length = df.rows.length
              rw [show ∀ dd : DataFrame, (renameColumn dd "MonthlyCharges_Category"
                "MonthlyCharges").rows.length = dd.rows.length from fun dd => rfl]
              rw [dropColumn_rows_length, setColumn_rows_length]
              simp [hlenq]
            · exact ⟨_, rfl⟩
          · exact absurd h (by simp)

/-- C6: for an input on which every pipeline step succeeds, the saved dataset
has exactly the cleaned row set (selection, binning and encoding neither add
nor remove rows), its columns end with `Churn`, and each categorical value of a
mapped column is replaced by its integer from the fixed mapping table. -/
theorem run_preprocessing_output (df d1 d2 d3 : DataFrame)
    (h1 : clean_data df = some d1) (h2 : select_features d1 = some d2)
    (h3 : feature_engineering d2 = some d3) :
    run_preprocessing (some df) = RunResult.saved (encode_data d3).1 ∧
    (∃ i, colIdx df "TotalCharges" = some i ∧
      d1.rows = (df.rows.map (fun r => r.set i (toNumericStripped (getCell r i)))).filter
        (fun r => ! hasNanRow r)) ∧
    d2.rows.length = d1.rows.length ∧
    d3.rows.length = d2.rows.length ∧
    (encode_data d3).1.rows.length = d3.rows.length ∧
    (encode_data d3).1.header.getLast? = some "Churn" ∧
    (∀ c m vs, (c, m) ∈ mappings → getColumn d3 c = some vs →
      ∀ n k z, n < vs.length → vs.getD n Value.nan = Value.str k →
        lookupMap m k = some z →
        ∃ ws, getColumn (encode_data d3).1 c = some ws ∧
          ws.getD n Value.nan = Value.num (z : ℚ)) := by
  have hrun : runPipeline df = some (encode_data d3).1 := by
    unfold runPipeline
    rw [h1, Option.some_bind, h2, Option.some_bind, h3, Option.map_some']
  refine ⟨?_, ?_, ?_, ?_, ?_, ?_, ?_⟩
  · show (match runPipeline df with
      | some out => RunResult.saved out
      | none => RunResult.genericErrorMessage) = _
    rw [hrun]
  · obtain ⟨i, hi, _, hrows⟩ := clean_data_spec df d1 h1
    exact ⟨i, hi, hrows⟩
  · exact (select_features_spec d1 d2 h2).2
  · exact (feature_engineering_len_churn d2 d3 h3).1
  · exact encodeFold_rows_length mappings (d3, [])
  · obtain ⟨X, hX⟩ := (feature_engineering_len_churn d2 d3 h3).2
    rw [show (encode_data d3).1.header = d3.header from
      encodeFold_header mappings (d3, []), hX]
    exact List.getLast?_concat X
  · intro c m vs hm hvs n k z hn hk hz
    exact ⟨encodedCol m vs,
      getColumn_encodeFold_mem mappings (d3, []) c m vs mappings_keys_nodup hm hvs,
      encodedCol_getD hn hk hz⟩

/-- A full nine-column raw input that survives the whole pipeline (its second
row has an unparseable `TotalCharges` and is dropped by cleaning). -/
def wdfRaw : DataFrame :=
  ⟨["TotalCharges", "InternetService", "OnlineSecurity", "TechSupport", "Contract",
    "PaymentMethod", "SeniorCitizen", "MonthlyCharges", "Churn"],
   [[.str "10", .str "DSL", .str "No", .str "No", .str "Month-to-month",
     .str "Electronic check", .num 0, .num 30, .str "No"],
    [.str "abc", .str "DSL", .str "Yes", .str "No", .str "One year",
     .str "Mailed check", .num 1, .num 50, .str "Yes"],
    [.str "40", .str "Fiber optic", .str "No", .str "Yes", .str "Two year",
     .str "Credit card (automatic)", .num 0, .num 90, .str "Yes"]]⟩

/-- `clean_data wdfRaw`. -/
def wd1 : DataFrame :=
  ⟨["TotalCharges", "InternetService", "OnlineSecurity", "TechSupport", "Contract",
    "PaymentMethod", "SeniorCitizen", "MonthlyCharges", "Churn"],
   [[.num 10, .str "DSL", .str "No", .str "No", .str "Month-to-month",
     .str "Electronic check", .num 0, .num 30, .str "No"],
    [.num 40, .str "Fiber optic", .str "No", .str "Yes", .str "Two year",
     .str "Credit card (automatic)", .num 0, .num 90, .str "Yes"]]⟩

/-- `select_features wd1`. -/
def wd2 : DataFrame :=
  ⟨["InternetService", "OnlineSecurity", "TechSupport", "Contract", "PaymentMethod",
    "SeniorCitizen", "MonthlyCharges", "Churn"],
   [[.str "DSL", .str "No", .str "No", .str "Month-to-month",
     .str "Electronic check", .num 0, .num 30, .str "No"],
    [.str "Fiber optic", .str "No", .str "Yes", .str "Two year",
     .str "Credit card (automatic)", .num 0, .num 90, .str "Yes"]]⟩

/-- `feature_engineering wd2`. -/
def wd3 : DataFrame :=
  ⟨["InternetService", "OnlineSecurity", "TechSupport", "Contract", "PaymentMethod",
    "SeniorCitizen", "MonthlyCharges", "Churn"],
   [[.str "DSL", .str "No", .str "No", .str "Month-to-month",
     .str "Electronic check", .num 0, .str "Rendah", .str "No"],
    [.str "Fiber optic", .str "No", .str "Yes", .str "Two year",
     .str "Credit card (automatic)", .num 0, .str "Tinggi", .str "Yes"]]⟩

unseal Rat.add Rat.mul Rat.inv Rat.sub in
theorem run_preprocessing_output_witness :
    clean_data wdfRaw = some wd1 ∧ select_features wd1 = some wd2 ∧
    feature_engineering wd2 = some wd3 ∧
    run_preprocessing (some wdfRaw) = RunResult.saved (encode_data wd3).1 ∧
    (encode_data wd3).1.rows.length = wd3.rows.length ∧
    (encode_data wd3).1.header.getLast? = some "Churn" :=
  ⟨by decide, by decide, by decide,
    (run_preprocessing_output wdfRaw wd1 wd2 wd3 (by decide) (by decide) (by decide)).1,
    (run_preprocessing_output wdfRaw wd1 wd2 wd3 (by decide) (by decide)
      (by decide)).2.2.2.2.1,
    (run_preprocessing_output wdfRaw wd1 wd2 wd3 (by decide) (by decide)
      (by decide)).2.2.2.2.2.1⟩
